import Mathlib

/-!
Verification of the dpmaster-rs client codec and query engine.

Byte strings are modelled as `List Nat` (each entry one octet).  The nom
combinator framework used by `src/parse.rs` is modelled by pure functions
`Bytes → PResult α`, where `PResult.err` is nom's recoverable
`Err::Error` (an `alt` tries its next branch) and `PResult.fail` is
nom's `Err::Failure` produced by `.cut()` (an `alt` aborts).
-/

set_option maxRecDepth 100000

namespace Dpmaster

abbrev Bytes := List Nat

inductive PResult (α : Type) where
  | ok (rest : Bytes) (val : α)
  | err
  | fail
deriving DecidableEq

abbrev BParse (α : Type) := Bytes → PResult α

/-- Model of nom `tag`: succeeds iff `t` is a literal byte prefix of the input. -/
def ptag (t : Bytes) : BParse Bytes := fun i =>
  if t.isPrefixOf i then .ok (i.drop t.length) t else .err

/-- Model of nom `take(n)`: consumes exactly `n` bytes, errs if fewer remain. -/
def ptake (n : Nat) : BParse Bytes := fun i =>
  if n ≤ i.length then .ok (i.drop n) (i.take n) else .err

/-- Model of nom `take_while(f)`: consumes the longest run satisfying `f`; never errs. -/
def ptakeWhile (f : Nat → Bool) : BParse Bytes := fun i =>
  .ok (i.dropWhile f) (i.takeWhile f)

/-- Model of nom `take_while1(f)`: as `take_while` but errs on the empty run. -/
def ptakeWhile1 (f : Nat → Bool) : BParse Bytes := fun i =>
  if i.takeWhile f = [] then .err else .ok (i.dropWhile f) (i.takeWhile f)

/-- Model of nom `take_until(&[b])` for a one-byte needle: consumes up to (not
including) the first occurrence of `b`, errs if `b` does not occur. -/
def ptakeUntilByte (b : Nat) : BParse Bytes := fun i =>
  if (i.takeWhile (fun c => !(c == b))).length = i.length then .err
  else .ok (i.dropWhile (fun c => !(c == b))) (i.takeWhile (fun c => !(c == b)))

/-- Sequencing (nom `tuple`): any sub-error propagates with its kind unchanged. -/
def pbind {α β : Type} (p : BParse α) (f : α → BParse β) : BParse β := fun i =>
  match p i with
  | .ok rest a => f a rest
  | .err => .err
  | .fail => .fail

/-- Model of nom `Parser::map`. -/
def pmap {α β : Type} (p : BParse α) (f : α → β) : BParse β := fun i =>
  match p i with
  | .ok rest a => .ok rest (f a)
  | .err => .err
  | .fail => .fail

/-- Model of nom `alt` for two branches: the second runs only on a
recoverable error of the first; a `Failure` aborts the alternation. -/
def palt {α : Type} (p q : BParse α) : BParse α := fun i =>
  match p i with
  | .err => q i
  | r => r

/-- Model of nom-supreme `.cut()`: turns a recoverable error into a failure. -/
def pcut {α : Type} (p : BParse α) : BParse α := fun i =>
  match p i with
  | .err => .fail
  | r => r

/-- Model of nom `many0` with an explicit fuel argument for structural
recursion: repeats `p` greedily; stops cleanly on a recoverable error,
propagates a failure, and (like nom) rejects an iteration that succeeds
without consuming input. -/
def pmany0F {α : Type} (p : BParse α) : Nat → BParse (List α)
  | 0, _ => .err
  | fuel + 1, i =>
    match p i with
    | .fail => .fail
    | .err => .ok i []
    | .ok rest a =>
      if rest.length < i.length then
        match pmany0F p fuel rest with
        | .ok rest' as => .ok rest' (a :: as)
        | .err => .err
        | .fail => .fail
      else .err

/-- Model of nom `many0`.  Each successful iteration consumes at least one
byte, so a fuel of one more than the input length is never exhausted. -/
def pmany0 {α : Type} (p : BParse α) : BParse (List α) := fun i =>
  pmany0F p (i.length + 1) i

/-- Model of nom `many1`: as `many0` but errs when the first iteration errs. -/
def pmany1 {α : Type} (p : BParse α) : BParse (List α) := fun i =>
  match pmany0 p i with
  | .ok _ [] => .err
  | r => r

/-! ## Address codec (`src/parse.rs`, `socket_addr_v4` / `socket_addr_v6` / `socket_addr`) -/

/-- Big-endian integer value of a byte string (`u32::from_be_bytes` and friends). -/
def beNat (bs : Bytes) : Nat := bs.foldl (fun a b => a * 256 + b) 0

structure SockAddrV4 where
  ip : Nat
  port : Nat
deriving DecidableEq

/-- Wire IPv6 addresses always carry zero flowinfo and scope, so only the
address value and port are modelled. -/
structure SockAddrV6 where
  ip : Nat
  port : Nat
deriving DecidableEq

inductive SockAddr where
  | v4 (a : SockAddrV4)
  | v6 (a : SockAddrV6)
deriving DecidableEq

/-- The 4-byte out-of-band marker `b"\xFF\xFF\xFF\xFF"` (`OOB` in the source;
its value is documented by the context string in `parse.rs`). -/
def OOB : Bytes := [255, 255, 255, 255]

/-- The 7-byte terminal marker `b"\\EOT\0\0\0"`. -/
def EOT : Bytes := [92, 69, 79, 84, 0, 0, 0]

def oob : BParse Bytes := ptag OOB

def eot : BParse Bytes := ptag EOT

/-- `parse.rs::socket_addr_v4`: tag `b"\\"` (92), 4 address bytes, 2 port bytes,
big-endian. -/
def socket_addr_v4 : BParse SockAddrV4 :=
  pbind (ptag [92]) fun _ =>
  pbind (ptake 4) fun ip =>
  pbind (ptake 2) fun port =>
  fun i => .ok i { ip := beNat ip, port := beNat port }

/-- `parse.rs::socket_addr_v6`: tag `b"/"` (47), 16 address bytes, 2 port bytes. -/
def socket_addr_v6 : BParse SockAddrV6 :=
  pbind (ptag [47]) fun _ =>
  pbind (ptake 16) fun ip =>
  pbind (ptake 2) fun port =>
  fun i => .ok i { ip := beNat ip, port := beNat port }

/-- `parse.rs::socket_addr`: `alt` trying the IPv4 branch first, then IPv6. -/
def socket_addr : BParse SockAddr :=
  palt (pmap socket_addr_v4 SockAddr.v4) (pmap socket_addr_v6 SockAddr.v6)

/-- `lib.rs::parse::socket_addr`: tries IPv6 first via `if let Ok`, then IPv4. -/
def socket_addr_lib : BParse SockAddr := fun i =>
  match socket_addr_v6 i with
  | .ok r s => .ok r (.v6 s)
  | _ => pmap socket_addr_v4 SockAddr.v4 i

/-! ## Response decoders (`src/parse.rs`) -/

/-- Byte string of an ASCII string literal. -/
def strBytes (s : String) : Bytes := s.data.map Char.toNat

/-- The source's local two-variant enum `Either`. -/
inductive PEither (L R : Type) where
  | left (l : L)
  | right (r : R)
deriving DecidableEq

/-- One entry of a `getserversResponse` body: `alt` trying the EOT literal
first, then an IPv4 address. -/
def gsrEntry : BParse (PEither SockAddrV4 Unit) :=
  palt (pmap eot fun _ => .right ()) (pmap socket_addr_v4 .left)

/-- The flag `contains_eot = matches!(list.last(), Some(Either::Right(())))`. -/
def eitherLastEot {σ : Type} (list : List (PEither σ Unit)) : Bool :=
  match list.getLast? with
  | some (.right _) => true
  | _ => false

/-- The closure of the `filter_map`: keep `Either::Left`, drop `Either::Right`. -/
def leftProj {σ : Type} : PEither σ Unit → Option σ
  | .left x => some x
  | .right _ => none

/-- The post-processing both discovery decoders apply to the entry list:
pop the final entry when it is the EOT literal, then keep the addresses
(the `filter_map` over `Either::Left`), paired with the contains-EOT flag. -/
def eitherPost {σ : Type} (list : List (PEither σ Unit)) : List σ × Bool :=
  ((if eitherLastEot list then list.dropLast else list).filterMap leftProj,
   eitherLastEot list)

/-- `parse.rs::getserversResponse`: OOB marker, the literal, then `many0` of
entries, post-processed by `eitherPost`. -/
def getserversResponse : BParse (List SockAddrV4 × Bool) :=
  pbind oob fun _ =>
  pbind (ptag (strBytes "getserversResponse")) fun _ =>
  pmap (pmany0 gsrEntry) eitherPost

/-- One entry of a `getserversExtResponse` body: EOT first, then any address. -/
def gsrExtEntry : BParse (PEither SockAddr Unit) :=
  palt (pmap eot fun _ => .right ()) (pmap socket_addr .left)

/-- `parse.rs::getserversExtResponse`: identical shape with the longer literal
and per-entry IPv4/IPv6 dispatch. -/
def getserversExtResponse : BParse (List SockAddr × Bool) :=
  pbind oob fun _ =>
  pbind (ptag (strBytes "getserversExtResponse")) fun _ =>
  pmap (pmany0 gsrExtEntry) eitherPost

/-- One `\key\value` repetition of `parse.rs::key_value_map` (92 = backslash,
10 = newline). -/
def kvPair : BParse (Bytes × Bytes) :=
  pbind (ptag [92]) fun _ =>
  pbind (ptakeWhile (fun b => !(b == 92))) fun k =>
  pbind (ptag [92]) fun _ =>
  pmap (ptakeWhile (fun b => !(b == 92) && !(b == 10))) fun v => (k, v)

/-- `parse.rs::key_value_map`: `many1` of repetitions; the decoded pairs in
encounter order (the Rust code then collects them into a `HashMap`,
modelled by `hmOfList` below). -/
def key_value_map : BParse (List (Bytes × Bytes)) := pmany1 kvPair

/-- Insertion into the `HashMap` model: replace the binding if the key is
present, append otherwise. -/
def hmInsert {κ ν : Type} [DecidableEq κ] : List (κ × ν) → κ → ν → List (κ × ν)
  | [], k, v => [(k, v)]
  | (k', v') :: t, k, v =>
    if k' = k then (k, v) :: t else (k', v') :: hmInsert t k v

/-- `Iterator::collect::<HashMap<_,_>>()`: left-to-right insertion, so a later
occurrence of a key overwrites an earlier one. -/
def hmOfList {κ ν : Type} [DecidableEq κ] (ps : List (κ × ν)) : List (κ × ν) :=
  ps.foldl (fun m p => hmInsert m p.1 p.2) []

def hmLookup {κ ν : Type} [DecidableEq κ] : List (κ × ν) → κ → Option ν
  | [], _ => none
  | (k', v') :: t, k => if k' = k then some v' else hmLookup t k

/-- The wire bytes of one `\key\value` repetition (92 = backslash). -/
def kvPairEnc (p : Bytes × Bytes) : Bytes := 92 :: p.1 ++ 92 :: p.2

/-- The wire bytes of a whole key-value run. -/
def kvEncode (ps : List (Bytes × Bytes)) : Bytes := (ps.map kvPairEnc).flatten

/-- `parse.rs::infoResponse`: OOB marker, literal `"infoResponse\n"`, key-value run. -/
def infoResponse : BParse (List (Bytes × Bytes)) :=
  pbind oob fun _ =>
  pbind (ptag (strBytes "infoResponse\n")) fun _ =>
  key_value_map

/-- `parse.rs::dquoted_string`: a double quote (34), everything up to the next
double quote (no escape handling), the closing quote. -/
def dquoted_string : BParse Bytes :=
  pbind (ptag [34]) fun _ =>
  pbind (ptakeUntilByte 34) fun text =>
  pmap (ptag [34]) fun _ => text

def utf8Cont (b : Nat) : Bool := 128 ≤ b && b ≤ 191

/-- UTF-8 validity of a byte string, as checked by `std::str::from_utf8`. -/
def utf8Valid : Bytes → Bool
  | [] => true
  | b :: rest =>
    if b ≤ 127 then utf8Valid rest
    else if 194 ≤ b && b ≤ 223 then
      match rest with
      | c :: r => utf8Cont c && utf8Valid r
      | [] => false
    else if b == 224 then
      match rest with
      | c1 :: c2 :: r => (160 ≤ c1 && c1 ≤ 191) && utf8Cont c2 && utf8Valid r
      | _ => false
    else if 225 ≤ b && b ≤ 236 then
      match rest with
      | c1 :: c2 :: r => utf8Cont c1 && utf8Cont c2 && utf8Valid r
      | _ => false
    else if b == 237 then
      match rest with
      | c1 :: c2 :: r => (128 ≤ c1 && c1 ≤ 159) && utf8Cont c2 && utf8Valid r
      | _ => false
    else if 238 ≤ b && b ≤ 239 then
      match rest with
      | c1 :: c2 :: r => utf8Cont c1 && utf8Cont c2 && utf8Valid r
      | _ => false
    else if b == 240 then
      match rest with
      | c1 :: c2 :: c3 :: r =>
        (144 ≤ c1 && c1 ≤ 191) && utf8Cont c2 && utf8Cont c3 && utf8Valid r
      | _ => false
    else if 241 ≤ b && b ≤ 243 then
      match rest with
      | c1 :: c2 :: c3 :: r => utf8Cont c1 && utf8Cont c2 && utf8Cont c3 && utf8Valid r
      | _ => false
    else if b == 244 then
      match rest with
      | c1 :: c2 :: c3 :: r =>
        (128 ≤ c1 && c1 ≤ 143) && utf8Cont c2 && utf8Cont c3 && utf8Valid r
      | _ => false
    else false

/-- `parse.rs::dquoted_ascii`: the quoted bytes, with `map_res(from_utf8)`
turning an invalid-UTF-8 result into a recoverable error. -/
def dquoted_ascii : BParse Bytes :=
  pbind dquoted_string fun bytes =>
  fun i => if utf8Valid bytes then .ok i bytes else .err

def isAsciiDigit (b : Nat) : Bool := 48 ≤ b && b ≤ 57

def take_ascii_digits : BParse Bytes := ptakeWhile1 isAsciiDigit

/-- `parse.rs::int`: `alt` of (minus sign then `cut` digits, `recognize`d as
the consumed bytes) and a plain digit run (45 = minus). -/
def int : BParse Bytes :=
  palt
    (pbind (ptag [45]) fun _ => pmap (pcut take_ascii_digits) fun ds => 45 :: ds)
    take_ascii_digits

/-- The four tokens of one player line, before the i32 conversions. -/
structure RawPlayer where
  frags : Bytes
  ping : Bytes
  name : Bytes
  team : Bytes
deriving DecidableEq

/-- `parse.rs::player_infos::player` at the grammar level: frags, space, ping,
space, double-quoted name, space, team, newline. -/
def player : BParse RawPlayer :=
  pbind int fun frags =>
  pbind (ptag [32]) fun _ =>
  pbind int fun ping =>
  pbind (ptag [32]) fun _ =>
  pbind dquoted_ascii fun name =>
  pbind (ptag [32]) fun _ =>
  pbind int fun team =>
  pmap (ptag [10]) fun _ => RawPlayer.mk frags ping name team

/-- `parse.rs::player_infos`: `many1` of player lines. -/
def player_infos : BParse (List RawPlayer) := pmany1 player

/-- The shared head of both `statusResponse` alternatives: OOB marker, literal
`"statusResponse\n"`, then `key_value_map.cut()`.  The source spells this
head out verbatim inside each branch of the `alt`; being pure, the two
copies behave identically on equal input. -/
def statusHead : BParse (List (Bytes × Bytes)) :=
  pbind oob fun _ =>
  pbind (ptag (strBytes "statusResponse\n")) fun _ =>
  pcut key_value_map

/-- `parse.rs::statusResponse`: first alternative requires a newline then
`player_infos.cut()`; second alternative stops after the key-value run and
returns an empty player list. -/
def statusResponse : BParse (List (Bytes × Bytes) × List RawPlayer) :=
  palt
    (pbind statusHead fun kv =>
      pbind (ptag [10]) fun _ =>
      pmap (pcut player_infos) fun ps => (kv, ps))
    (pmap statusHead fun kv => (kv, []))

/-- Decimal value of an ASCII digit run (48 = the digit zero). -/
def digitsVal (ds : Bytes) : Nat := ds.foldl (fun a d => a * 10 + (d - 48)) 0

/-- Model of `str::parse::<i32>()` on an integer token as produced by the
`int` grammar (optional minus then digits): `none` when the value falls
outside the i32 range, in which case the source's `.unwrap()` panics. -/
def i32parse (t : Bytes) : Option Int :=
  let v : Int := match t with
    | 45 :: ds => -(digitsVal ds : Int)
    | ds => (digitsVal ds : Int)
  if -(2 ^ 31) ≤ v ∧ v ≤ 2 ^ 31 - 1 then some v else none

structure PlayerInfo where
  frags : Int
  ping : Int
  name : Bytes
  team : Int
deriving DecidableEq

/-- The i32 conversions applied by the source inside `player` via
`from_utf8(..).unwrap().parse().unwrap()`; `none` marks the panic path. -/
def toPlayerInfo (r : RawPlayer) : Option PlayerInfo := do
  let frags ← i32parse r.frags
  let ping ← i32parse r.ping
  let team ← i32parse r.team
  pure ⟨frags, ping, r.name, team⟩

/-! ## Request encoders (`src/game_server_commands.rs`, `src/master_server_commands.rs`,
`src/lib.rs`).  The `Write` sink is modelled as an accumulated byte list; the
in-memory `Cursor` writers used by the client never produce an I/O error, so
the only fallible path is challenge validation. -/

/-- The per-byte challenge check of `write_get_info` / `write_get_status`:
the excluded bytes (92 `\`, 47 `/`, 59 `;`, 34 `"`, 37 `%`) are matched
first, then the printable range 33..=126, all else rejected. -/
def challengeByteOk (b : Nat) : Bool :=
  if b == 92 || b == 47 || b == 59 || b == 34 || b == 37 then false
  else if 33 ≤ b && b ≤ 126 then true
  else false

/-- `game_server_commands::write_get_info` on writer state `w`: returns the
reported byte count (or `none` for `InvalidChallengeCharacter`) and the
final writer state.  Validation precedes every write. -/
def write_get_info (w : Bytes) (challenge : Bytes) : Option Nat × Bytes :=
  if challenge.all challengeByteOk then
    (some (OOB.length + (strBytes "getinfo").length + 1 + challenge.length),
     w ++ OOB ++ strBytes "getinfo" ++ [32] ++ challenge)
  else (none, w)

/-- `game_server_commands::write_get_status`: identical shape with the
`"getstatus"` command name. -/
def write_get_status (w : Bytes) (challenge : Bytes) : Option Nat × Bytes :=
  if challenge.all challengeByteOk then
    (some (OOB.length + (strBytes "getstatus").length + 1 + challenge.length),
     w ++ OOB ++ strBytes "getstatus" ++ [32] ++ challenge)
  else (none, w)

structure GetServersFilter where
  empty : Bool
  full : Bool
  gametype : Option Bytes

/-- `GetServersFilter::write`: the selected tokens, each preceded by one
space (32), in the order empty, full, gametype. -/
def GetServersFilter.write (f : GetServersFilter) : Bytes :=
  (if f.empty then 32 :: strBytes "empty" else []) ++
  (if f.full then 32 :: strBytes "full" else []) ++
  (match f.gametype with
   | some g => 32 :: g
   | none => [])

structure GetServersExtFilter where
  empty : Bool
  full : Bool
  gametype : Option Bytes
  ipv4 : Bool
  ipv6 : Bool

/-- `GetServersExtFilter::write`: order empty, full, gametype, ipv4, ipv6. -/
def GetServersExtFilter.write (f : GetServersExtFilter) : Bytes :=
  (if f.empty then 32 :: strBytes "empty" else []) ++
  (if f.full then 32 :: strBytes "full" else []) ++
  (match f.gametype with
   | some g => 32 :: g
   | none => []) ++
  (if f.ipv4 then 32 :: strBytes "ipv4" else []) ++
  (if f.ipv6 then 32 :: strBytes "ipv6" else [])

/-- `master_server_commands::write_get_servers`: marker, `"getservers"`,
optional space+game-name, space, protocol-version, filter suffix. -/
def write_get_servers (game_name : Option Bytes) (protocol_version : Bytes)
    (filter : GetServersFilter) : Bytes :=
  OOB ++ strBytes "getservers" ++
  (match game_name with
   | some n => 32 :: n
   | none => []) ++
  32 :: protocol_version ++ filter.write

/-- `master_server_commands::write_get_servers_ext`: marker,
`"getserversExt"`, space, game-name, space, protocol-version, filter suffix. -/
def write_get_servers_ext (game_name protocol_version : Bytes)
    (filter : GetServersExtFilter) : Bytes :=
  OOB ++ strBytes "getserversExt" ++ 32 :: game_name ++
  32 :: protocol_version ++ filter.write

/-- `lib.rs::MasterServer::create_get_servers`, transcribed as written: the
branch guarded by `full` appends the token `"empty"` and the branch guarded
by `empty` appends the token `"full"`. -/
def create_get_servers (name protocol_version : Bytes) (full empty : Bool) : Bytes :=
  OOB ++ strBytes "getservers" ++ 32 :: name ++ 32 :: protocol_version ++
  (if full then 32 :: strBytes "empty" else []) ++
  (if empty then 32 :: strBytes "full" else [])

/-! ## Discovery receive loop (`src/client.rs`, `Master::get_servers`).

The model keeps the loop's observable state: the 1400-byte receive buffer
and the list of per-datagram byte counts (`writes`).  `socket.recv` is
called on `recv_buf.get_mut()`, the whole underlying vector, so every
datagram lands at offset 0; `recv_buf.position()` is read (always 0) but
never advanced inside the loop. -/

def MAX_PACKET_LEN : Nat := 1400

/-- Each received datagram overwrites the buffer from offset 0. -/
def overwriteAt0 (buf d : Bytes) : Bytes := d ++ buf.drop d.length

/-- The loop's terminal-marker check: `last_7_bytes = &buf[(end_pos-7)..end_pos]`
with `end_pos = position + written = written`.  When `written < 7` the
usize subtraction underflows and the process panics; that outcome is
modelled as `none`. -/
def eotCheck (buf : Bytes) (written : Nat) : Option Bool :=
  if written < 7 then none
  else some (((buf.drop (written - 7)).take 7) == EOT)

/-- The receive loop over the datagrams that arrive before the timeout, in
arrival order: push each length onto `writes`, stop after a datagram whose
final 7 bytes are the EOT literal; `none` is the panic of `eotCheck`.
Returns the final buffer contents and `writes`. -/
def masterRecvLoop (buf : Bytes) : List Bytes → Option (Bytes × List Nat)
  | [] => some (buf, [])
  | d :: ds =>
    let buf' := overwriteAt0 buf d
    match eotCheck buf' d.length with
    | none => none
    | some true => some (buf', [d.length])
    | some false => (masterRecvLoop buf' ds).map fun r => (r.1, d.length :: r.2)

/-- The `scan` in `Master::get_servers`: the slice of the final buffer at each
cumulative offset. -/
def scanSlices (buf : Bytes) : Nat → List Nat → List Bytes
  | _, [] => []
  | pos, w :: ws => ((buf.drop pos).take w) :: scanSlices buf (pos + w) ws

/-- `Master::get_servers` after the send: receive until EOT or timeout, then
parse each scan slice as a `getserversResponse` (leftover bytes and the
datagram-info kind are dropped), keep the successes, and concatenate their
address lists.  `none` is the short-datagram panic. -/
def master_get_servers (datagrams : List Bytes) : Option (List SockAddrV4) :=
  (masterRecvLoop (List.replicate MAX_PACKET_LEN 0) datagrams).map fun r =>
    ((scanSlices r.1 0 r.2).filterMap fun b =>
      match getserversResponse b with
      | .ok _ x => some x.1
      | _ => none).flatten

/-! ## Per-server query loop (`src/client.rs`, `Game::get_info` /
`Game::get_status`).

The arrivals list holds the `(source, payload)` pairs that would be
delivered before the timeout fires, in arrival order; an empty remainder
means the `sleep` branch of the `select` wins. -/

inductive ClientOutcome (α : Type) where
  | timeout
  | parseFailure
  | ok (a : α)
deriving DecidableEq

/-- The receive loop: a datagram whose source differs from the target address
is discarded (`continue`); the first one from the target breaks the loop;
exhausting the arrivals is the timeout branch. -/
def gameRecvLoop (target : SockAddr) : List (SockAddr × Bytes) → Option Bytes
  | [] => none
  | (src, d) :: ds => if src = target then some d else gameRecvLoop target ds

/-- Decoding of the one accepted datagram: any parse error becomes the
query's `ParseResponseError` outcome (no retry). -/
def decodeWith {α : Type} (p : BParse α) (d : Bytes) : ClientOutcome α :=
  match p d with
  | .ok _ a => .ok a
  | _ => .parseFailure

/-- `Game::get_info` / `Game::get_status` after the send, parameterised by the
response decoder (grammar level): timeout if no correctly-sourced datagram
arrives, otherwise decode the first such datagram. -/
def gameQuery {α : Type} (p : BParse α) (target : SockAddr)
    (arrivals : List (SockAddr × Bytes)) : ClientOutcome α :=
  match gameRecvLoop target arrivals with
  | none => .timeout
  | some d => decodeWith p d

/-! ## The discovery-response entry run (claim C1)

An abstract entry is either the EOT literal or an address whose payload
bytes are given explicitly; well-formedness states the payload sizes of the
wire format and, for IPv4-tagged entries, that the payload is not the tail
of the EOT literal (both start with byte 92, and the `alt` tries EOT first). -/

inductive GsEntry where
  | eotE
  | addrE (ip port : Bytes)
deriving DecidableEq

def GsEntry.wf : GsEntry → Prop
  | .eotE => True
  | .addrE ip port => ip.length = 4 ∧ port.length = 2 ∧ ip ++ port ≠ [69, 79, 84, 0, 0, 0]

def encGs : GsEntry → Bytes
  | .eotE => EOT
  | .addrE ip port => 92 :: (ip ++ port)

def itemGs : GsEntry → PEither SockAddrV4 Unit
  | .eotE => .right ()
  | .addrE ip port => .left ⟨beNat ip, beNat port⟩

/-- Every address occurring in an entry run, in order, markers skipped. -/
def gsAddrs (es : List GsEntry) : List SockAddrV4 :=
  es.filterMap fun e => match e with
    | .eotE => none
    | .addrE ip port => some ⟨beNat ip, beNat port⟩

/-- Whether the final entry of the run is the terminal marker. -/
def gsLastEot (es : List GsEntry) : Bool :=
  match es.getLast? with
  | some .eotE => true
  | _ => false

inductive GsExtEntry where
  | eotE
  | a4 (ip port : Bytes)
  | a6 (ip port : Bytes)
deriving DecidableEq

def GsExtEntry.wf : GsExtEntry → Prop
  | .eotE => True
  | .a4 ip port => ip.length = 4 ∧ port.length = 2 ∧ ip ++ port ≠ [69, 79, 84, 0, 0, 0]
  | .a6 ip port => ip.length = 16 ∧ port.length = 2

def encGsExt : GsExtEntry → Bytes
  | .eotE => EOT
  | .a4 ip port => 92 :: (ip ++ port)
  | .a6 ip port => 47 :: (ip ++ port)

def itemGsExt : GsExtEntry → PEither SockAddr Unit
  | .eotE => .right ()
  | .a4 ip port => .left (.v4 ⟨beNat ip, beNat port⟩)
  | .a6 ip port => .left (.v6 ⟨beNat ip, beNat port⟩)

def gsExtAddrs (es : List GsExtEntry) : List SockAddr :=
  es.filterMap fun e => match e with
    | .eotE => none
    | .a4 ip port => some (.v4 ⟨beNat ip, beNat port⟩)
    | .a6 ip port => some (.v6 ⟨beNat ip, beNat port⟩)

def gsExtLastEot (es : List GsExtEntry) : Bool :=
  match es.getLast? with
  | some .eotE => true
  | _ => false

/-! ## Combinator lemmas -/

theorem ptag_append (t r : Bytes) : ptag t (t ++ r) = .ok r t := by
  have h : t.isPrefixOf (t ++ r) = true := by
    rw [List.isPrefixOf_iff_prefix]
    exact List.prefix_append t r
  simp [ptag, h, List.drop_left]

theorem ptag_err (t i : Bytes) (h : ¬ t <+: i) : ptag t i = .err := by
  have hb : t.isPrefixOf i = false := by
    rw [Bool.eq_false_iff]
    intro hc
    exact h (List.isPrefixOf_iff_prefix.mp hc)
  simp [ptag, hb]

theorem ptag_ne_fail (t i : Bytes) : ptag t i ≠ .fail := by
  unfold ptag; split <;> simp

theorem ptake_append (b rest : Bytes) (n : Nat) (h : b.length = n) :
    ptake n (b ++ rest) = .ok rest b := by
  subst h
  simp [ptake, List.take_left, List.drop_left]

theorem ptake_ne_fail (n : Nat) (i : Bytes) : ptake n i ≠ .fail := by
  unfold ptake; split <;> simp

theorem takeWhile_append_of (f : Nat → Bool) :
    ∀ (k rest : Bytes), (∀ b ∈ k, f b = true) →
      (rest = [] ∨ ∃ c t, rest = c :: t ∧ f c = false) →
      (k ++ rest).takeWhile f = k ∧ (k ++ rest).dropWhile f = rest
  | [], rest, _, hrest => by
    rcases hrest with h | ⟨c, t, rfl, hc⟩
    · subst h; simp
    · simp [hc]
  | a :: k, rest, hk, hrest => by
    have ha : f a = true := hk a (by simp)
    have ih := takeWhile_append_of f k rest (fun b hb => hk b (by simp [hb])) hrest
    simp [List.takeWhile_cons, List.dropWhile_cons, ha, ih.1, ih.2]

theorem ptakeWhile_append (f : Nat → Bool) (k rest : Bytes) (hk : ∀ b ∈ k, f b = true)
    (hrest : rest = [] ∨ ∃ c t, rest = c :: t ∧ f c = false) :
    ptakeWhile f (k ++ rest) = .ok rest k := by
  have h := takeWhile_append_of f k rest hk hrest
  simp [ptakeWhile, h.1, h.2]

/-- Parsing the encoding of a list of items, one item at a time: `many0`
with enough fuel consumes them all and returns the item list. -/
theorem pmany0F_encode {α ε : Type} (p : BParse α) (enc : ε → Bytes) (item : ε → α)
    (hnil : p [] = .err) (es : List ε)
    (hstep : ∀ e ∈ es, ∀ es' : List ε,
      p (enc e ++ (es'.map enc).flatten) = .ok ((es'.map enc).flatten) (item e))
    (hne : ∀ e ∈ es, enc e ≠ []) :
    ∀ fuel : Nat, ((es.map enc).flatten).length < fuel →
      pmany0F p fuel ((es.map enc).flatten) = .ok [] (es.map item) := by
  induction es with
  | nil =>
    intro fuel hfuel
    cases fuel with
    | zero => omega
    | succ f =>
      simp only [List.map_nil, List.flatten_nil]
      simp only [pmany0F, hnil]
  | cons e es ih =>
    intro fuel hfuel
    cases fuel with
    | zero => omega
    | succ f =>
      have hp := hstep e (by simp) es
      have h1 : enc e ≠ [] := hne e (by simp)
      have hpos : 0 < (enc e).length := List.length_pos.mpr h1
      have hlt : ((es.map enc).flatten).length < (enc e ++ (es.map enc).flatten).length := by
        simp only [List.length_append]
        omega
      have ihh := ih (fun e' he' es' => hstep e' (by simp [he']) es')
        (fun e' he' => hne e' (by simp [he'])) f (by
          simp only [List.map_cons, List.flatten_cons, List.length_append] at hfuel
          omega)
      simp only [List.map_cons, List.flatten_cons]
      simp only [pmany0F, hp, hlt, if_true, ihh]

/-- `many0` over the encoding of a list of items. -/
theorem pmany0_encode {α ε : Type} (p : BParse α) (enc : ε → Bytes) (item : ε → α)
    (hnil : p [] = .err) (es : List ε)
    (hstep : ∀ e ∈ es, ∀ es' : List ε,
      p (enc e ++ (es'.map enc).flatten) = .ok ((es'.map enc).flatten) (item e))
    (hne : ∀ e ∈ es, enc e ≠ []) :
    pmany0 p ((es.map enc).flatten) = .ok [] (es.map item) :=
  pmany0F_encode p enc item hnil es hstep hne _ (Nat.lt_succ_self _)

theorem pbind_ok {α β : Type} (p : BParse α) (f : α → BParse β) (i r : Bytes) (a : α)
    (h : p i = .ok r a) : pbind p f i = f a r := by
  simp [pbind, h]

theorem pbind_err {α β : Type} (p : BParse α) (f : α → BParse β) (i : Bytes)
    (h : p i = .err) : pbind p f i = .err := by
  simp [pbind, h]

theorem pbind_fail {α β : Type} (p : BParse α) (f : α → BParse β) (i : Bytes)
    (h : p i = .fail) : pbind p f i = .fail := by
  simp [pbind, h]

theorem pmap_ok {α β : Type} (p : BParse α) (f : α → β) (i r : Bytes) (a : α)
    (h : p i = .ok r a) : pmap p f i = .ok r (f a) := by
  simp [pmap, h]

theorem pmap_err {α β : Type} (p : BParse α) (f : α → β) (i : Bytes)
    (h : p i = .err) : pmap p f i = .err := by
  simp [pmap, h]

theorem palt_first {α : Type} (p q : BParse α) (i r : Bytes) (a : α)
    (h : p i = .ok r a) : palt p q i = .ok r a := by
  simp [palt, h]

theorem palt_second {α : Type} (p q : BParse α) (i : Bytes)
    (h : p i = .err) : palt p q i = q i := by
  simp [palt, h]

theorem palt_fail {α : Type} (p q : BParse α) (i : Bytes)
    (h : p i = .fail) : palt p q i = .fail := by
  simp [palt, h]

theorem pcut_ok {α : Type} (p : BParse α) (i r : Bytes) (a : α)
    (h : p i = .ok r a) : pcut p i = .ok r a := by
  simp [pcut, h]

theorem pcut_err {α : Type} (p : BParse α) (i : Bytes)
    (h : p i = .err) : pcut p i = .fail := by
  simp [pcut, h]

theorem pcut_fail {α : Type} (p : BParse α) (i : Bytes)
    (h : p i = .fail) : pcut p i = .fail := by
  simp [pcut, h]

theorem pmany1_eq_of_pmany0 {α : Type} (p : BParse α) (i r : Bytes) (a : α) (ps : List α)
    (h : pmany0 p i = .ok r (a :: ps)) : pmany1 p i = .ok r (a :: ps) := by
  simp [pmany1, h]

theorem pmany1_ne_nil {α : Type} (p : BParse α) (i r : Bytes) (ps : List α)
    (h : pmany1 p i = .ok r ps) : ps ≠ [] := by
  intro hnil
  subst hnil
  unfold pmany1 at h
  cases h0 : pmany0 p i with
  | ok r0 v0 =>
    rw [h0] at h
    cases v0 with
    | nil => simp at h
    | cons a t => simp at h
  | err => rw [h0] at h; simp at h
  | fail => rw [h0] at h; simp at h

theorem socket_addr_v4_encode (ip port rest : Bytes) (h4 : ip.length = 4)
    (h2 : port.length = 2) :
    socket_addr_v4 ((92 :: (ip ++ port)) ++ rest) = .ok rest ⟨beNat ip, beNat port⟩ := by
  have e1 : (92 :: (ip ++ port)) ++ rest = [92] ++ (ip ++ (port ++ rest)) := by simp
  rw [e1]
  unfold socket_addr_v4
  rw [pbind_ok _ _ _ _ _ (ptag_append [92] (ip ++ (port ++ rest)))]
  rw [pbind_ok _ _ _ _ _ (ptake_append ip (port ++ rest) 4 h4)]
  rw [pbind_ok _ _ _ _ _ (ptake_append port rest 2 h2)]

theorem socket_addr_v6_encode (ip port rest : Bytes) (h16 : ip.length = 16)
    (h2 : port.length = 2) :
    socket_addr_v6 ((47 :: (ip ++ port)) ++ rest) = .ok rest ⟨beNat ip, beNat port⟩ := by
  have e1 : (47 :: (ip ++ port)) ++ rest = [47] ++ (ip ++ (port ++ rest)) := by simp
  rw [e1]
  unfold socket_addr_v6
  rw [pbind_ok _ _ _ _ _ (ptag_append [47] (ip ++ (port ++ rest)))]
  rw [pbind_ok _ _ _ _ _ (ptake_append ip (port ++ rest) 16 h16)]
  rw [pbind_ok _ _ _ _ _ (ptake_append port rest 2 h2)]

theorem ptag_cons_err (x y : Nat) (t r : Bytes) (h : x ≠ y) :
    ptag (x :: t) (y :: r) = .err := by
  apply ptag_err
  intro hpre
  rw [List.cons_prefix_cons] at hpre
  exact h hpre.1

theorem eot_err_of_addr (ip port rest : Bytes) (h4 : ip.length = 4) (h2 : port.length = 2)
    (hne : ip ++ port ≠ [69, 79, 84, 0, 0, 0]) :
    eot ((92 :: (ip ++ port)) ++ rest) = .err := by
  apply ptag_err
  intro hpre
  rw [show EOT = 92 :: [69, 79, 84, 0, 0, 0] from rfl] at hpre
  rw [show (92 :: (ip ++ port)) ++ rest = 92 :: ((ip ++ port) ++ rest) from by simp] at hpre
  rw [List.cons_prefix_cons] at hpre
  obtain ⟨t, ht⟩ := hpre.2
  have hlen : ([69, 79, 84, 0, 0, 0] : Bytes).length = (ip ++ port).length := by
    simp [h4, h2]
  exact hne ((List.append_inj ht hlen).1.symm)

theorem socket_addr_v4_ne_fail (i : Bytes) : socket_addr_v4 i ≠ .fail := by
  unfold socket_addr_v4
  cases h1 : ptag [92] i with
  | ok r1 a1 =>
    rw [pbind_ok _ _ _ _ _ h1]
    cases h2 : ptake 4 r1 with
    | ok r2 a2 =>
      rw [pbind_ok _ _ _ _ _ h2]
      cases h3 : ptake 2 r2 with
      | ok r3 a3 => rw [pbind_ok _ _ _ _ _ h3]; simp
      | err => rw [pbind_err _ _ _ h3]; simp
      | fail => exact absurd h3 (ptake_ne_fail 2 r2)
    | err => rw [pbind_err _ _ _ h2]; simp
    | fail => exact absurd h2 (ptake_ne_fail 4 r1)
  | err => rw [pbind_err _ _ _ h1]; simp
  | fail => exact absurd h1 (ptag_ne_fail [92] i)

theorem socket_addr_v6_ne_fail (i : Bytes) : socket_addr_v6 i ≠ .fail := by
  unfold socket_addr_v6
  cases h1 : ptag [47] i with
  | ok r1 a1 =>
    rw [pbind_ok _ _ _ _ _ h1]
    cases h2 : ptake 16 r1 with
    | ok r2 a2 =>
      rw [pbind_ok _ _ _ _ _ h2]
      cases h3 : ptake 2 r2 with
      | ok r3 a3 => rw [pbind_ok _ _ _ _ _ h3]; simp
      | err => rw [pbind_err _ _ _ h3]; simp
      | fail => exact absurd h3 (ptake_ne_fail 2 r2)
    | err => rw [pbind_err _ _ _ h2]; simp
    | fail => exact absurd h2 (ptake_ne_fail 16 r1)
  | err => rw [pbind_err _ _ _ h1]; simp
  | fail => exact absurd h1 (ptag_ne_fail [47] i)

theorem gsrEntry_encode (e : GsEntry) (hwf : e.wf) (rest : Bytes) :
    gsrEntry (encGs e ++ rest) = .ok rest (itemGs e) := by
  cases e with
  | eotE =>
    have h1 : eot (EOT ++ rest) = .ok rest EOT := ptag_append EOT rest
    simp only [encGs, itemGs, gsrEntry]
    rw [palt_first _ _ _ _ _ (pmap_ok _ _ _ _ _ h1)]
  | addrE ip port =>
    obtain ⟨h4, h2, hne⟩ := hwf
    have he : eot ((92 :: (ip ++ port)) ++ rest) = .err :=
      eot_err_of_addr ip port rest h4 h2 hne
    have hv : socket_addr_v4 ((92 :: (ip ++ port)) ++ rest) = .ok rest ⟨beNat ip, beNat port⟩ :=
      socket_addr_v4_encode ip port rest h4 h2
    simp only [encGs, itemGs, gsrEntry]
    rw [palt_second _ _ _ (pmap_err _ _ _ he)]
    rw [pmap_ok _ _ _ _ _ hv]

theorem gsrExtEntry_encode (e : GsExtEntry) (hwf : e.wf) (rest : Bytes) :
    gsrExtEntry (encGsExt e ++ rest) = .ok rest (itemGsExt e) := by
  cases e with
  | eotE =>
    have h1 : eot (EOT ++ rest) = .ok rest EOT := ptag_append EOT rest
    simp only [encGsExt, itemGsExt, gsrExtEntry]
    rw [palt_first _ _ _ _ _ (pmap_ok _ _ _ _ _ h1)]
  | a4 ip port =>
    obtain ⟨h4, h2, hne⟩ := hwf
    have he : eot ((92 :: (ip ++ port)) ++ rest) = .err :=
      eot_err_of_addr ip port rest h4 h2 hne
    have hv4 : socket_addr_v4 ((92 :: (ip ++ port)) ++ rest) = .ok rest ⟨beNat ip, beNat port⟩ :=
      socket_addr_v4_encode ip port rest h4 h2
    have hsa : socket_addr ((92 :: (ip ++ port)) ++ rest)
        = .ok rest (.v4 ⟨beNat ip, beNat port⟩) := by
      unfold socket_addr
      rw [palt_first _ _ _ _ _ (pmap_ok _ _ _ _ _ hv4)]
    simp only [encGsExt, itemGsExt, gsrExtEntry]
    rw [palt_second _ _ _ (pmap_err _ _ _ he)]
    rw [pmap_ok _ _ _ _ _ hsa]
  | a6 ip port =>
    obtain ⟨h16, h2⟩ := hwf
    have he : eot ((47 :: (ip ++ port)) ++ rest) = .err := by
      rw [show (47 :: (ip ++ port)) ++ rest = 47 :: ((ip ++ port) ++ rest) from by simp]
      exact ptag_cons_err 92 47 _ _ (by decide)
    have hv4 : socket_addr_v4 ((47 :: (ip ++ port)) ++ rest) = .err := by
      unfold socket_addr_v4
      apply pbind_err
      rw [show (47 :: (ip ++ port)) ++ rest = 47 :: ((ip ++ port) ++ rest) from by simp]
      exact ptag_cons_err 92 47 _ _ (by decide)
    have hv6 : socket_addr_v6 ((47 :: (ip ++ port)) ++ rest) = .ok rest ⟨beNat ip, beNat port⟩ :=
      socket_addr_v6_encode ip port rest h16 h2
    have hsa : socket_addr ((47 :: (ip ++ port)) ++ rest)
        = .ok rest (.v6 ⟨beNat ip, beNat port⟩) := by
      unfold socket_addr
      rw [palt_second _ _ _ (pmap_err _ _ _ hv4)]
      rw [pmap_ok _ _ _ _ _ hv6]
    simp only [encGsExt, itemGsExt, gsrExtEntry]
    rw [palt_second _ _ _ (pmap_err _ _ _ he)]
    rw [pmap_ok _ _ _ _ _ hsa]

theorem filterMap_left_dropLast {σ : Type} (L : List (PEither σ Unit))
    (h : L.getLast? = some (.right ())) :
    L.dropLast.filterMap leftProj = L.filterMap leftProj := by
  induction L using List.reverseRecOn with
  | nil => simp at h
  | append_singleton es e ih =>
    rw [List.getLast?_concat] at h
    injection h with h
    subst h
    rw [List.dropLast_concat, List.filterMap_append]
    simp [leftProj]

theorem eitherLastEot_map_gs (es : List GsEntry) :
    eitherLastEot (es.map itemGs) = gsLastEot es := by
  unfold eitherLastEot gsLastEot
  rw [List.getLast?_map]
  cases h : es.getLast? with
  | none => rfl
  | some e => cases e <;> rfl

theorem filterMap_itemGs (es : List GsEntry) :
    (es.map itemGs).filterMap leftProj = gsAddrs es := by
  rw [List.filterMap_map]
  unfold gsAddrs
  congr 1
  funext e
  cases e <;> rfl

theorem eitherPost_map_gs (es : List GsEntry) :
    eitherPost (es.map itemGs) = (gsAddrs es, gsLastEot es) := by
  unfold eitherPost
  rw [eitherLastEot_map_gs]
  cases hflag : gsLastEot es with
  | false => rw [if_neg (by decide), filterMap_itemGs]
  | true =>
    have hlast : (es.map itemGs).getLast? = some (.right ()) := by
      rw [List.getLast?_map]
      unfold gsLastEot at hflag
      cases h : es.getLast? with
      | none => rw [h] at hflag; simp at hflag
      | some e =>
        cases e with
        | eotE => simp [h, itemGs]
        | addrE ip port => rw [h] at hflag; simp at hflag
    rw [if_pos rfl, filterMap_left_dropLast _ hlast, filterMap_itemGs]

theorem eitherLastEot_map_gsExt (es : List GsExtEntry) :
    eitherLastEot (es.map itemGsExt) = gsExtLastEot es := by
  unfold eitherLastEot gsExtLastEot
  rw [List.getLast?_map]
  cases h : es.getLast? with
  | none => rfl
  | some e => cases e <;> rfl

theorem filterMap_itemGsExt (es : List GsExtEntry) :
    (es.map itemGsExt).filterMap leftProj = gsExtAddrs es := by
  rw [List.filterMap_map]
  unfold gsExtAddrs
  congr 1
  funext e
  cases e <;> rfl

theorem eitherPost_map_gsExt (es : List GsExtEntry) :
    eitherPost (es.map itemGsExt) = (gsExtAddrs es, gsExtLastEot es) := by
  unfold eitherPost
  rw [eitherLastEot_map_gsExt]
  cases hflag : gsExtLastEot es with
  | false => rw [if_neg (by decide), filterMap_itemGsExt]
  | true =>
    have hlast : (es.map itemGsExt).getLast? = some (.right ()) := by
      rw [List.getLast?_map]
      unfold gsExtLastEot at hflag
      cases h : es.getLast? with
      | none => rw [h] at hflag; simp at hflag
      | some e =>
        cases e with
        | eotE => simp [h, itemGsExt]
        | a4 ip port => rw [h] at hflag; simp at hflag
        | a6 ip port => rw [h] at hflag; simp at hflag
    rw [if_pos rfl, filterMap_left_dropLast _ hlast, filterMap_itemGsExt]

theorem getserversResponse_encode (es : List GsEntry) (hwf : ∀ e ∈ es, e.wf) :
    getserversResponse (OOB ++ strBytes "getserversResponse" ++ (es.map encGs).flatten)
      = .ok [] (gsAddrs es, gsLastEot es) := by
  have hm : pmany0 gsrEntry ((es.map encGs).flatten) = .ok [] (es.map itemGs) :=
    pmany0_encode gsrEntry encGs itemGs (by decide) es
      (fun e he es' => gsrEntry_encode e (hwf e he) _)
      (fun e he => by cases e <;> simp [encGs, EOT])
  unfold getserversResponse
  rw [List.append_assoc]
  rw [pbind_ok _ _ _ _ _
    (show oob (OOB ++ (strBytes "getserversResponse" ++ (es.map encGs).flatten))
       = .ok (strBytes "getserversResponse" ++ (es.map encGs).flatten) OOB
     from ptag_append OOB _)]
  rw [pbind_ok _ _ _ _ _ (ptag_append (strBytes "getserversResponse") _)]
  rw [pmap_ok _ _ _ _ _ hm]
  rw [eitherPost_map_gs]

theorem getserversExtResponse_encode (es : List GsExtEntry) (hwf : ∀ e ∈ es, e.wf) :
    getserversExtResponse (OOB ++ strBytes "getserversExtResponse" ++ (es.map encGsExt).flatten)
      = .ok [] (gsExtAddrs es, gsExtLastEot es) := by
  have hm : pmany0 gsrExtEntry ((es.map encGsExt).flatten) = .ok [] (es.map itemGsExt) :=
    pmany0_encode gsrExtEntry encGsExt itemGsExt (by decide) es
      (fun e he es' => gsrExtEntry_encode e (hwf e he) _)
      (fun e he => by cases e <;> simp [encGsExt, EOT])
  unfold getserversExtResponse
  rw [List.append_assoc]
  rw [pbind_ok _ _ _ _ _
    (show oob (OOB ++ (strBytes "getserversExtResponse" ++ (es.map encGsExt).flatten))
       = .ok (strBytes "getserversExtResponse" ++ (es.map encGsExt).flatten) OOB
     from ptag_append OOB _)]
  rw [pbind_ok _ _ _ _ _ (ptag_append (strBytes "getserversExtResponse") _)]
  rw [pmap_ok _ _ _ _ _ hm]
  rw [eitherPost_map_gsExt]

/-! ## Key-value run lemmas -/

theorem pmap_fail {α β : Type} (p : BParse α) (f : α → β) (i : Bytes)
    (h : p i = .fail) : pmap p f i = .fail := by
  simp [pmap, h]

theorem kvPair_encode (k v rest : Bytes)
    (hk : ∀ b ∈ k, b ≠ 92) (hv : ∀ b ∈ v, b ≠ 92 ∧ b ≠ 10)
    (hrest : rest = [] ∨ ∃ t, rest = 92 :: t) :
    kvPair ((92 :: k ++ 92 :: v) ++ rest) = .ok rest (k, v) := by
  have e1 : (92 :: k ++ 92 :: v) ++ rest = [92] ++ (k ++ ([92] ++ (v ++ rest))) := by simp
  rw [e1]
  unfold kvPair
  rw [pbind_ok _ _ _ _ _ (ptag_append [92] _)]
  rw [pbind_ok _ _ _ _ _ (ptakeWhile_append _ k ([92] ++ (v ++ rest))
    (fun b hb => by have := hk b hb; simp [this])
    (Or.inr ⟨92, v ++ rest, rfl, by decide⟩))]
  rw [pbind_ok _ _ _ _ _ (ptag_append [92] _)]
  have hrest' : v ++ rest = v ++ rest := rfl
  rw [pmap_ok _ _ _ _ _ (ptakeWhile_append _ v rest
    (fun b hb => by have := hv b hb; simp [this.1, this.2])
    (by
      rcases hrest with rfl | ⟨t, rfl⟩
      · exact Or.inl rfl
      · exact Or.inr ⟨92, t, rfl, by decide⟩))]

theorem key_value_map_encode (ps : List (Bytes × Bytes)) (hne : ps ≠ [])
    (hwf : ∀ p ∈ ps, (∀ b ∈ p.1, b ≠ 92) ∧ (∀ b ∈ p.2, b ≠ 92 ∧ b ≠ 10)) :
    key_value_map (kvEncode ps) = .ok [] ps := by
  have h0 : pmany0 kvPair ((ps.map kvPairEnc).flatten) = .ok [] (ps.map id) := by
    apply pmany0_encode kvPair kvPairEnc id (by decide) ps
    · intro p hp ps'
      obtain ⟨hk, hv⟩ := hwf p hp
      have hrest : (ps'.map kvPairEnc).flatten = [] ∨
          ∃ t, (ps'.map kvPairEnc).flatten = 92 :: t := by
        cases ps' with
        | nil => exact Or.inl rfl
        | cons q qs =>
          exact Or.inr ⟨q.1 ++ 92 :: (q.2 ++ ((qs.map kvPairEnc).flatten)),
            by simp [kvPairEnc]⟩
      exact kvPair_encode p.1 p.2 _ hk hv hrest
    · intro p hp
      simp [kvPairEnc]
  rw [List.map_id] at h0
  cases ps with
  | nil => exact absurd rfl hne
  | cons a t => exact pmany1_eq_of_pmany0 _ _ _ _ _ h0

theorem hmLookup_hmInsert {κ ν : Type} [DecidableEq κ] (m : List (κ × ν)) (k' : κ) (v : ν)
    (k : κ) : hmLookup (hmInsert m k' v) k = if k' = k then some v else hmLookup m k := by
  induction m with
  | nil => simp [hmInsert, hmLookup]
  | cons a t ih =>
    obtain ⟨ak, av⟩ := a
    by_cases h1 : ak = k'
    · subst h1
      rw [show hmInsert ((ak, av) :: t) ak v = (ak, v) :: t from by simp [hmInsert]]
      by_cases h2 : ak = k
      · subst h2; simp [hmLookup]
      · simp [hmLookup, h2]
    · rw [show hmInsert ((ak, av) :: t) k' v = (ak, av) :: hmInsert t k' v from by
        simp [hmInsert, h1]]
      by_cases h2 : ak = k
      · subst h2
        have hk' : k' ≠ ak := fun hh => h1 hh.symm
        simp [hmLookup, hk']
      · simp [hmLookup, h2, ih]

theorem hmOfList_lookup_aux {κ ν : Type} [DecidableEq κ] (k : κ) (ps : List (κ × ν)) :
    ∀ m : List (κ × ν),
      hmLookup (ps.foldl (fun m p => hmInsert m p.1 p.2) m) k =
        (match (ps.filter fun p => decide (p.1 = k)).getLast? with
         | some p => some p.2
         | none => hmLookup m k) := by
  induction ps using List.reverseRecOn with
  | nil => intro m; rfl
  | append_singleton qs q ih =>
    intro m
    rw [List.foldl_append]
    simp only [List.foldl_cons, List.foldl_nil]
    rw [hmLookup_hmInsert]
    rw [List.filter_append]
    by_cases hq : q.1 = k
    · rw [if_pos hq]
      have : (List.filter (fun p => decide (p.1 = k)) [q]) = [q] := by
        simp [List.filter_cons, hq]
      rw [this, List.getLast?_concat]
    · rw [if_neg hq]
      have : (List.filter (fun p => decide (p.1 = k)) [q]) = [] := by
        simp [List.filter_cons, hq]
      rw [this, List.append_nil]
      exact ih m

theorem hmOfList_lookup {κ ν : Type} [DecidableEq κ] (ps : List (κ × ν)) (k : κ) :
    hmLookup (hmOfList ps) k
      = ((ps.filter fun p => decide (p.1 = k)).getLast?).map Prod.snd := by
  unfold hmOfList
  rw [hmOfList_lookup_aux]
  cases h : (ps.filter fun p => decide (p.1 = k)).getLast? with
  | none => simp [hmLookup]
  | some p => simp

/-! ## Per-server receive loop lemmas -/

theorem gameRecvLoop_none (target : SockAddr) (ds : List (SockAddr × Bytes))
    (h : ∀ a ∈ ds, a.1 ≠ target) : gameRecvLoop target ds = none := by
  induction ds with
  | nil => rfl
  | cons a as ih =>
    obtain ⟨src, d⟩ := a
    have hs : src ≠ target := h (src, d) (by simp)
    rw [show gameRecvLoop target ((src, d) :: as) = gameRecvLoop target as from by
      simp [gameRecvLoop, hs]]
    exact ih (fun b hb => h b (by simp [hb]))

theorem gameRecvLoop_first (target : SockAddr) (pre : List (SockAddr × Bytes)) (d : Bytes)
    (post : List (SockAddr × Bytes)) (h : ∀ a ∈ pre, a.1 ≠ target) :
    gameRecvLoop target (pre ++ (target, d) :: post) = some d := by
  induction pre with
  | nil => simp [gameRecvLoop]
  | cons a pre' ih =>
    obtain ⟨src, d'⟩ := a
    have hs : src ≠ target := h (src, d') (by simp)
    rw [show ((src, d') :: pre') ++ (target, d) :: post
        = (src, d') :: (pre' ++ (target, d) :: post) from rfl]
    rw [show gameRecvLoop target ((src, d') :: (pre' ++ (target, d) :: post))
        = gameRecvLoop target (pre' ++ (target, d) :: post) from by simp [gameRecvLoop, hs]]
    exact ih (fun b hb => h b (by simp [hb]))

/-! ## Challenge charset -/

theorem challengeByteOk_iff (b : Nat) :
    challengeByteOk b = true ↔
      (33 ≤ b ∧ b ≤ 126 ∧ b ≠ 92 ∧ b ≠ 47 ∧ b ≠ 59 ∧ b ≠ 34 ∧ b ≠ 37) := by
  unfold challengeByteOk
  split
  next h =>
    simp only [Bool.or_eq_true, beq_iff_eq] at h
    constructor
    · intro hf; exact absurd hf (by decide)
    · intro hh
      obtain ⟨c1, c2, c3, c4, c5, c6, c7⟩ := hh
      omega
  next h =>
    simp only [Bool.or_eq_true, beq_iff_eq, not_or] at h
    split
    next h2 =>
      simp only [Bool.and_eq_true, decide_eq_true_eq] at h2
      constructor
      · intro _
        refine ⟨h2.1, h2.2, ?_, ?_, ?_, ?_, ?_⟩ <;> omega
      · intro _; rfl
    next h2 =>
      simp only [Bool.and_eq_true, decide_eq_true_eq, not_and] at h2
      constructor
      · intro hf; exact absurd hf (by decide)
      · intro hh; exact absurd hh.2.1 (h2 hh.1)

/-! ## Address-dispatch lemmas -/

theorem socket_addr_v4_ok_head (i r : Bytes) (s : SockAddrV4)
    (h : socket_addr_v4 i = .ok r s) : ∃ t, i = 92 :: t := by
  cases i with
  | nil =>
    exfalso
    revert h
    unfold socket_addr_v4
    rw [pbind_err _ _ _ (by decide : ptag [92] ([] : Bytes) = .err)]
    simp
  | cons b t =>
    by_cases hb : b = 92
    · exact ⟨t, by rw [hb]⟩
    · exfalso
      revert h
      unfold socket_addr_v4
      rw [pbind_err _ _ _ (ptag_cons_err 92 b [] t (fun hh => hb hh.symm))]
      simp

theorem socket_addr_v6_ok_head (i r : Bytes) (s : SockAddrV6)
    (h : socket_addr_v6 i = .ok r s) : ∃ t, i = 47 :: t := by
  cases i with
  | nil =>
    exfalso
    revert h
    unfold socket_addr_v6
    rw [pbind_err _ _ _ (by decide : ptag [47] ([] : Bytes) = .err)]
    simp
  | cons b t =>
    by_cases hb : b = 47
    · exact ⟨t, by rw [hb]⟩
    · exfalso
      revert h
      unfold socket_addr_v6
      rw [pbind_err _ _ _ (ptag_cons_err 47 b [] t (fun hh => hb hh.symm))]
      simp

/-! ## Claim theorems -/

/-- C1 (counterexample).  The claim says decoding stops at the first
occurrence of the terminal marker, returns only the addresses preceding it,
leaves the bytes after it unconsumed, and flags the result complete.  On
the input whose entry run is the EOT literal followed by one address
encoding, the decoder instead consumes the address after the marker,
returns it, and flags the result not complete. -/
theorem getserversResponse_not_stop_at_first_eot :
    getserversResponse (OOB ++ strBytes "getserversResponse" ++ (EOT ++ [92, 1, 2, 3, 4, 5, 6]))
      = .ok [] ([⟨16909060, 1286⟩], false) ∧
    getserversResponse (OOB ++ strBytes "getserversResponse" ++ (EOT ++ [92, 1, 2, 3, 4, 5, 6]))
      ≠ .ok [92, 1, 2, 3, 4, 5, 6] ([], true) := by
  exact ⟨by decide, by decide⟩

/-- C1 (amended).  Both discovery decoders accept the header followed by any
well-formed run of entries (each entry the EOT literal or an address
encoding); the returned list holds every address of the run, including any
after a marker; the contains-EOT flag is set iff the final entry is the
marker; an empty run and a run without the marker are accepted flagged
not-complete. -/
theorem getserversResponse_entry_run (es : List GsEntry) (hwf : ∀ e ∈ es, e.wf)
    (fs : List GsExtEntry) (hwf' : ∀ e ∈ fs, e.wf) :
    getserversResponse (OOB ++ strBytes "getserversResponse" ++ (es.map encGs).flatten)
      = .ok [] (gsAddrs es, gsLastEot es) ∧
    getserversExtResponse (OOB ++ strBytes "getserversExtResponse" ++ (fs.map encGsExt).flatten)
      = .ok [] (gsExtAddrs fs, gsExtLastEot fs) :=
  ⟨getserversResponse_encode es hwf, getserversExtResponse_encode fs hwf'⟩

/-- C1 (witness): a run with the marker first and an address after it, and an
extended run with one IPv6 address before the marker. -/
theorem getserversResponse_entry_run_witness :
    getserversResponse (OOB ++ strBytes "getserversResponse"
        ++ (([GsEntry.eotE, GsEntry.addrE [1, 2, 3, 4] [5, 6]]).map encGs).flatten)
      = .ok [] ([⟨16909060, 1286⟩], false) ∧
    getserversExtResponse (OOB ++ strBytes "getserversExtResponse"
        ++ (([GsExtEntry.a6 (List.replicate 16 0) [0, 80], GsExtEntry.eotE]).map encGsExt).flatten)
      = .ok [] ([.v6 ⟨0, 80⟩], true) := by
  have h := getserversResponse_entry_run
    [GsEntry.eotE, GsEntry.addrE [1, 2, 3, 4] [5, 6]]
    (by
      intro e he
      simp at he
      rcases he with rfl | rfl
      · trivial
      · exact ⟨rfl, rfl, by decide⟩)
    [GsExtEntry.a6 (List.replicate 16 0) [0, 80], GsExtEntry.eotE]
    (by
      intro e he
      simp at he
      rcases he with rfl | rfl
      · exact ⟨by decide, rfl⟩
      · trivial)
  constructor
  · rw [h.1]; decide
  · rw [h.2]; decide

/-- C2.  `Master::get_servers` receives every datagram at offset 0 of the
same buffer without advancing the cursor, then parses slices of the final
buffer at cumulative offsets.  With two datagrams that each decode as a
discovery response (addresses 1.1.1.1:1 and 2.2.2.2:2, EOT on the second),
the query returns only the second address instead of the claimed
concatenation of both per-datagram address lists. -/
theorem master_get_servers_buffer_overwrite :
    master_get_servers
        [OOB ++ strBytes "getserversResponse" ++ [92, 1, 1, 1, 1, 0, 1],
         OOB ++ strBytes "getserversResponse" ++ [92, 2, 2, 2, 2, 0, 2] ++ EOT]
      = some [⟨33686018, 2⟩] ∧
    getserversResponse (OOB ++ strBytes "getserversResponse" ++ [92, 1, 1, 1, 1, 0, 1])
      = .ok [] ([⟨16843009, 1⟩], false) ∧
    getserversResponse (OOB ++ strBytes "getserversResponse" ++ [92, 2, 2, 2, 2, 0, 2] ++ EOT)
      = .ok [] ([⟨33686018, 2⟩], true) ∧
    ([⟨33686018, 2⟩] : List SockAddrV4) ≠ [⟨16843009, 1⟩, ⟨33686018, 2⟩] := by
  exact ⟨by decide, by decide, by decide, by decide⟩

/-- C3.  The per-server receive loop never decodes a datagram whose source
differs from the target: if every arrival has a wrong source the query
times out, and the first arrival from the target is the one decoded and
returned (success or decode failure), whatever arrives afterwards. -/
theorem gameQuery_source_filtering {α : Type} (p : BParse α) (target : SockAddr)
    (arrivals : List (SockAddr × Bytes)) :
    ((∀ a ∈ arrivals, a.1 ≠ target) → gameQuery p target arrivals = .timeout) ∧
    (∀ pre d post, arrivals = pre ++ (target, d) :: post →
      (∀ a ∈ pre, a.1 ≠ target) →
      gameQuery p target arrivals = decodeWith p d) := by
  constructor
  · intro h
    unfold gameQuery
    rw [gameRecvLoop_none target arrivals h]
  · intro pre d post heq hpre
    subst heq
    unfold gameQuery
    rw [gameRecvLoop_first target pre d post hpre]

/-- C3 (witness): only a wrong-source arrival times out; a wrong-source
arrival followed by a correctly-sourced info response yields that response. -/
theorem gameQuery_source_filtering_witness :
    gameQuery infoResponse (.v4 ⟨1, 1⟩) [(.v4 ⟨2, 2⟩, OOB)] = .timeout ∧
    gameQuery infoResponse (.v4 ⟨1, 1⟩)
        [(.v4 ⟨2, 2⟩, [0]),
         (.v4 ⟨1, 1⟩, OOB ++ strBytes "infoResponse\n" ++ strBytes "\\g\\1")]
      = .ok [(strBytes "g", strBytes "1")] := by
  constructor
  · exact (gameQuery_source_filtering infoResponse _ _).1 (by decide)
  · have h := (gameQuery_source_filtering infoResponse (.v4 ⟨1, 1⟩)
      [(.v4 ⟨2, 2⟩, [0]),
       (.v4 ⟨1, 1⟩, OOB ++ strBytes "infoResponse\n" ++ strBytes "\\g\\1")]).2
      [(.v4 ⟨2, 2⟩, [0])] (OOB ++ strBytes "infoResponse\n" ++ strBytes "\\g\\1") [] rfl
      (by decide)
    rw [h]; decide

/-- C4.  Every inbound decoder begins with the OOB marker tag, so any input
whose first four bytes differ from `FF FF FF FF` (including shorter
inputs) is rejected by all four of them. -/
theorem decoders_reject_missing_oob (i : Bytes) (h : i.take 4 ≠ OOB) :
    getserversResponse i = .err ∧ getserversExtResponse i = .err ∧
    infoResponse i = .err ∧ statusResponse i = .err := by
  have hoob : oob i = .err := by
    apply ptag_err
    intro hpre
    apply h
    have := List.prefix_iff_eq_take.mp hpre
    simpa [OOB] using this.symm
  refine ⟨?_, ?_, ?_, ?_⟩
  · unfold getserversResponse; exact pbind_err _ _ _ hoob
  · unfold getserversExtResponse; exact pbind_err _ _ _ hoob
  · unfold infoResponse; exact pbind_err _ _ _ hoob
  · have hsh : statusHead i = .err := by
      unfold statusHead; exact pbind_err _ _ _ hoob
    unfold statusResponse
    rw [palt_second _ _ _ (pbind_err _ _ _ hsh)]
    exact pmap_err _ _ _ hsh

/-- C4 (witness) at the input `[0]`. -/
theorem decoders_reject_missing_oob_witness :
    (([0] : Bytes).take 4 ≠ OOB) ∧ getserversResponse [0] = .err ∧
    getserversExtResponse [0] = .err ∧ infoResponse [0] = .err ∧
    statusResponse [0] = .err := by
  have h := decoders_reject_missing_oob [0] (by decide)
  exact ⟨by decide, h.1, h.2.1, h.2.2.1, h.2.2.2⟩

/-- C5.  After the marker, the literal and a valid key-value run: if the
input ends there the response is the key-value list with no players; if a
newline follows, `player_infos.cut()` must deliver one or more player
lines, and a recoverable or unrecoverable failure of the player section is
a hard failure of the whole response (the no-players alternative is never
consulted). -/
theorem statusResponse_player_section (i r : Bytes) (m : List (Bytes × Bytes))
    (h : statusHead i = .ok r m) :
    (r = [] → statusResponse i = .ok [] (m, [])) ∧
    (∀ r', r = 10 :: r' →
      (∀ rest ps, player_infos r' = .ok rest ps →
        statusResponse i = .ok rest (m, ps) ∧ ps ≠ []) ∧
      (player_infos r' = .err → statusResponse i = .fail) ∧
      (player_infos r' = .fail → statusResponse i = .fail)) := by
  constructor
  · intro hr
    subst hr
    unfold statusResponse
    rw [palt_second _ _ _ (by
      rw [pbind_ok _ _ _ _ _ h]
      apply pbind_err
      apply ptag_err
      intro hpre
      simpa using List.prefix_nil.mp hpre)]
    rw [pmap_ok _ _ _ _ _ h]
  · intro r' hr
    subst hr
    have htag : ptag [10] (10 :: r') = .ok r' [10] := ptag_append [10] r'
    refine ⟨?_, ?_, ?_⟩
    · intro rest ps hps
      constructor
      · unfold statusResponse
        rw [palt_first _ _ _ _ _ (by
          rw [pbind_ok _ _ _ _ _ h]
          rw [pbind_ok _ _ _ _ _ htag]
          exact pmap_ok _ _ _ _ _ (pcut_ok _ _ _ _ hps))]
      · exact pmany1_ne_nil player r' rest ps hps
    · intro hps
      unfold statusResponse
      rw [palt_fail _ _ _ (by
        rw [pbind_ok _ _ _ _ _ h]
        rw [pbind_ok _ _ _ _ _ htag]
        exact pmap_fail _ _ _ (pcut_err _ _ hps))]
    · intro hps
      unfold statusResponse
      rw [palt_fail _ _ _ (by
        rw [pbind_ok _ _ _ _ _ h]
        rw [pbind_ok _ _ _ _ _ htag]
        exact pmap_fail _ _ _ (pcut_fail _ _ hps))]

/-- C5 (witness): end of input after the key-value run yields no players; a
newline and one valid player line yields that player; a newline followed by
a malformed player section makes the whole parse fail hard. -/
theorem statusResponse_player_section_witness :
    statusResponse (OOB ++ strBytes "statusResponse\n" ++ strBytes "\\g\\1")
      = .ok [] ([(strBytes "g", strBytes "1")], []) ∧
    statusResponse (OOB ++ strBytes "statusResponse\n" ++ strBytes "\\g\\1"
        ++ [10] ++ strBytes "5 23 \"A\" 1\n")
      = .ok [] ([(strBytes "g", strBytes "1")],
          [⟨strBytes "5", strBytes "23", strBytes "A", strBytes "1"⟩]) ∧
    statusResponse (OOB ++ strBytes "statusResponse\n" ++ strBytes "\\g\\1"
        ++ [10] ++ strBytes "garbage")
      = .fail := by
  refine ⟨?_, ?_, ?_⟩
  · exact (statusResponse_player_section _ [] _ (by decide)).1 rfl
  · exact (((statusResponse_player_section _ (10 :: strBytes "5 23 \"A\" 1\n") _
      (by decide)).2 (strBytes "5 23 \"A\" 1\n") rfl).1 [] _ (by decide)).1
  · exact ((statusResponse_player_section _ (10 :: strBytes "garbage")
      [(strBytes "g", strBytes "1")]
      (by decide)).2 (strBytes "garbage") rfl).2.1 (by decide)

/-- C6.  Decoding the encoding of one or more `\key\value` pairs (keys free
of backslash, values free of backslash and newline, either possibly empty)
succeeds, consumes everything, and returns the pairs in order; the empty
input (zero repetitions) is a parse error; collecting into the hash map
binds every key to the value of its last occurrence. -/
theorem key_value_map_last_wins (ps : List (Bytes × Bytes)) (hne : ps ≠ [])
    (hwf : ∀ p ∈ ps, (∀ b ∈ p.1, b ≠ 92) ∧ (∀ b ∈ p.2, b ≠ 92 ∧ b ≠ 10)) :
    key_value_map (kvEncode ps) = .ok [] ps ∧
    key_value_map [] = .err ∧
    ∀ k, hmLookup (hmOfList ps) k
      = ((ps.filter fun p => decide (p.1 = k)).getLast?).map Prod.snd := by
  exact ⟨key_value_map_encode ps hne hwf, by decide, fun k => hmOfList_lookup ps k⟩

/-- C6 (witness): the spec's example bytes decode to exactly the two pairs,
and the map binds sv_hostname to Test Server. -/
theorem key_value_map_last_wins_witness :
    key_value_map (strBytes "\\sv_hostname\\Test Server\\gametype\\ffa")
      = .ok [] [(strBytes "sv_hostname", strBytes "Test Server"),
                (strBytes "gametype", strBytes "ffa")] ∧
    hmLookup (hmOfList [(strBytes "sv_hostname", strBytes "Test Server"),
        (strBytes "gametype", strBytes "ffa")]) (strBytes "sv_hostname")
      = some (strBytes "Test Server") := by
  have h := key_value_map_last_wins
    [(strBytes "sv_hostname", strBytes "Test Server"), (strBytes "gametype", strBytes "ffa")]
    (by decide) (by decide)
  constructor
  · have he : kvEncode [(strBytes "sv_hostname", strBytes "Test Server"),
        (strBytes "gametype", strBytes "ffa")]
      = strBytes "\\sv_hostname\\Test Server\\gametype\\ffa" := by decide
    rw [← he]
    exact h.1
  · rw [h.2.2 (strBytes "sv_hostname")]
    decide

/-- C7.  Two panic paths: a received datagram shorter than 7 bytes makes the
terminal-marker check subtract past zero (modelled `none`), aborting the
whole receive loop; and a player line whose integer token exceeds the i32
range is accepted by the grammar but makes the `parse().unwrap()`
conversion panic (modelled `none`). -/
theorem master_loop_and_player_conversion_panic :
    eotCheck (overwriteAt0 (List.replicate MAX_PACKET_LEN 0) [255, 255, 255]) 3 = none ∧
    masterRecvLoop (List.replicate MAX_PACKET_LEN 0) [[255, 255, 255]] = none ∧
    player (strBytes "9999999999 0 \"A\" 0\n")
      = .ok [] ⟨strBytes "9999999999", strBytes "0", strBytes "A", strBytes "0"⟩ ∧
    toPlayerInfo ⟨strBytes "9999999999", strBytes "0", strBytes "A", strBytes "0"⟩ = none := by
  exact ⟨by decide, by decide, by decide, by decide⟩

/-- C8.  `lib.rs::create_get_servers` swaps the filter tokens: with
`full = false, empty = true` it emits the token `full`, not `empty`; the
commands-module encoder `write_get_servers` emits the claimed request, and
the extended filter writes its tokens in the order empty, full, gametype,
ipv4, ipv6, each preceded by one space. -/
theorem create_get_servers_swapped_filter_tokens :
    create_get_servers (strBytes "Warfork") (strBytes "26") false true
      = OOB ++ strBytes "getservers Warfork 26 full" ∧
    create_get_servers (strBytes "Warfork") (strBytes "26") false true
      ≠ OOB ++ strBytes "getservers Warfork 26 empty" ∧
    write_get_servers (some (strBytes "Warfork")) (strBytes "26")
        ⟨true, false, none⟩
      = OOB ++ strBytes "getservers Warfork 26 empty" ∧
    write_get_servers_ext (strBytes "Warfork") (strBytes "26")
        ⟨true, true, some (strBytes "ffa"), true, true⟩
      = OOB ++ strBytes "getserversExt Warfork 26 empty full ffa ipv4 ipv6" := by
  exact ⟨by decide, by decide, by decide, by decide⟩

/-- C9.  The per-entry address dispatch gives the same result whichever tag
is attempted first: the `parse.rs` order (IPv4 then IPv6) and the `lib.rs`
order (IPv6 then IPv4) are extensionally equal, because the single tag byte
(92 versus 47) disambiguates the variants. -/
theorem socket_addr_dispatch_order (i : Bytes) : socket_addr i = socket_addr_lib i := by
  unfold socket_addr socket_addr_lib
  cases h4 : socket_addr_v4 i with
  | ok r s =>
    rw [palt_first _ _ _ _ _ (pmap_ok _ _ _ _ _ h4)]
    cases h6 : socket_addr_v6 i with
    | ok r' s' =>
      obtain ⟨t4, ht4⟩ := socket_addr_v4_ok_head i r s h4
      obtain ⟨t6, ht6⟩ := socket_addr_v6_ok_head i r' s' h6
      rw [ht4] at ht6
      injection ht6 with h1 _
      exact absurd h1 (by decide)
    | err => rw [pmap_ok _ _ _ _ _ h4]
    | fail => exact absurd h6 (socket_addr_v6_ne_fail i)
  | err =>
    rw [palt_second _ _ _ (pmap_err _ _ _ h4)]
    cases h6 : socket_addr_v6 i with
    | ok r s => rw [pmap_ok _ _ _ _ _ h6]
    | err => rw [pmap_err _ _ _ h6, pmap_err _ _ _ h4]
    | fail => exact absurd h6 (socket_addr_v6_ne_fail i)
  | fail => exact absurd h4 (socket_addr_v4_ne_fail i)

/-- C10.  The two game-server request writers succeed exactly when every
challenge byte is printable ASCII 33..=126 and none of backslash, slash,
semicolon, double quote, percent; the empty challenge is accepted; and on
the validation error nothing has been written to the writer. -/
theorem write_challenge_validation (w c : Bytes) :
    ((write_get_info w c).1.isSome = true ↔
      ∀ b ∈ c, 33 ≤ b ∧ b ≤ 126 ∧ b ≠ 92 ∧ b ≠ 47 ∧ b ≠ 59 ∧ b ≠ 34 ∧ b ≠ 37) ∧
    ((write_get_status w c).1.isSome = true ↔
      ∀ b ∈ c, 33 ≤ b ∧ b ≤ 126 ∧ b ≠ 92 ∧ b ≠ 47 ∧ b ≠ 59 ∧ b ≠ 34 ∧ b ≠ 37) ∧
    ((write_get_info w c).1 = none → (write_get_info w c).2 = w) ∧
    ((write_get_status w c).1 = none → (write_get_status w c).2 = w) ∧
    (write_get_info w []).1.isSome = true ∧
    (write_get_status w []).1.isSome = true := by
  have hall : (c.all challengeByteOk = true) ↔
      (∀ b ∈ c, 33 ≤ b ∧ b ≤ 126 ∧ b ≠ 92 ∧ b ≠ 47 ∧ b ≠ 59 ∧ b ≠ 34 ∧ b ≠ 37) := by
    rw [List.all_eq_true]
    constructor
    · intro h b hb; exact (challengeByteOk_iff b).mp (h b hb)
    · intro h b hb; exact (challengeByteOk_iff b).mpr (h b hb)
  by_cases hc : c.all challengeByteOk = true
  · refine ⟨?_, ?_, ?_, ?_, rfl, rfl⟩
    · rw [show (write_get_info w c).1 = some (OOB.length + (strBytes "getinfo").length
          + 1 + c.length) from by unfold write_get_info; rw [if_pos hc]]
      exact ⟨fun _ => hall.mp hc, fun _ => rfl⟩
    · rw [show (write_get_status w c).1 = some (OOB.length + (strBytes "getstatus").length
          + 1 + c.length) from by unfold write_get_status; rw [if_pos hc]]
      exact ⟨fun _ => hall.mp hc, fun _ => rfl⟩
    · intro hnone
      rw [show (write_get_info w c).1 = some (OOB.length + (strBytes "getinfo").length
          + 1 + c.length) from by unfold write_get_info; rw [if_pos hc]] at hnone
      simp at hnone
    · intro hnone
      rw [show (write_get_status w c).1 = some (OOB.length + (strBytes "getstatus").length
          + 1 + c.length) from by unfold write_get_status; rw [if_pos hc]] at hnone
      simp at hnone
  · refine ⟨?_, ?_, ?_, ?_, rfl, rfl⟩
    · rw [show (write_get_info w c).1 = none from by unfold write_get_info; rw [if_neg hc]]
      simp only [Option.isSome_none, Bool.false_eq_true, false_iff]
      intro hh
      exact hc (hall.mpr hh)
    · rw [show (write_get_status w c).1 = none from by unfold write_get_status; rw [if_neg hc]]
      simp only [Option.isSome_none, Bool.false_eq_true, false_iff]
      intro hh
      exact hc (hall.mpr hh)
    · intro _
      rw [show (write_get_info w c).2 = w from by unfold write_get_info; rw [if_neg hc]]
    · intro _
      rw [show (write_get_status w c).2 = w from by unfold write_get_status; rw [if_neg hc]]

/-- C10 (witness): a valid challenge is accepted, and rejected challenges
(slash, backslash) leave the writer untouched. -/
theorem write_challenge_validation_witness :
    (write_get_info [] (strBytes "hello")).1.isSome = true ∧
    (write_get_info [] (strBytes "he/llo")).2 = [] ∧
    (write_get_status [] [92]).2 = [] := by
  refine ⟨?_, ?_, ?_⟩
  · exact (write_challenge_validation [] (strBytes "hello")).1.mpr (by decide)
  · exact (write_challenge_validation [] (strBytes "he/llo")).2.2.1 (by decide)
  · exact (write_challenge_validation [] [92]).2.2.2.1 (by decide)

end Dpmaster
